import Mathlib

/-!
# Verification of the WebScraperPortable crawl engine

Shallow embedding of the core crawl engine of `src/scraper.py`
(`WebCrawler`), together with the parts of `src/storage.py`
(`StorageManager`) and `src/utils.py` it relies on.

Modelling conventions:
* External collaborators (HTTP fetching / document parsing via
  `ContentParser.get_content_and_title`, link extraction via
  `ContentParser.extract_links`, embedding-based scoring inside
  `SemanticAnalyzer`, `os.path` functions, wall-clock time) are opaque
  functions packaged in an `Env` / `SemanticAnalyzerM` record.  Calls into
  collaborators that may raise a Python exception are modelled with
  `Except String`; the `try`/`except` blocks of `scraper.py` are modelled
  explicitly.
* Python float scores are modelled as rationals (`Rat`), keeping the
  comparisons against the thresholds exact and decidable.
* Python truthiness of optional strings / lists (`if content_text:`,
  `if self.user_topic_embedding:`) is modelled by `truthyStr` /
  `truthyOptList`.
* The threaded dispatch loop (`_crawl_without_progress` /
  `_crawl_with_progress`) pops work items in FIFO order in batches and
  waits for each batch; its sequential (single-worker interleaving)
  semantics is the step function `crawlStep` iterated by `crawlLoop`.
* The in-memory set `visited_sources` and the storage cache
  `processed_sources_cache` are modelled as duplicate-free lists used
  only through membership; file writes performed by
  `StorageManager._save_content_file` are recorded in a `storeLog` of
  `Sink.store` calls.  Ghost logs (`pushLog`, `processedLog`,
  `extractCalls`) record enqueue events, dequeue events and calls to
  `_extract_and_queue_links`; they do not influence control flow.
-/

/-- Python truthiness of an `Optional[str]`: `None` and `""` are falsy. -/
def truthyStr : Option String → Bool
  | none => false
  | some s => !(s == "")

/-- Python truthiness of an `Optional[List[...]]`: `None` and `[]` are falsy. -/
def truthyOptList {α : Type} : Option (List α) → Bool
  | none => false
  | some l => !l.isEmpty

/-- Python `x or y` for `x : Optional[str]`, `y : str`: the left value when
truthy, otherwise the right value. -/
def pyStrOr : Option String → String → String
  | none, y => y
  | some s, y => if s == "" then y else s

/-- Result tuple of `ContentParser.get_content_and_title`:
`(content_text, title, raw_html_content, error_message)`. -/
structure FetchResult where
  text : Option String
  title : Option String
  rawHtml : Option String
  error : Option String
deriving DecidableEq, Repr

/-- One entry of the list returned by `ContentParser.extract_links`:
a dict with keys `url` and `anchor`. -/
structure LinkInfo where
  url : String
  anchor : String
deriving DecidableEq, Repr

/-- Model of a `SemanticAnalyzer` instance.  `available` is the value of
`is_available()` (`features_available and client is not None`, both fixed
runtime-environment facts).  The scoring methods reach the embedding
service / numpy, so they are opaque collaborator calls that may raise. -/
structure SemanticAnalyzerM where
  available : Bool
  scoreTopicRelevance : String → String → Except String Rat
  scoreLinkRelevance : String → String → Except String Rat
  getEmbedding : String → Option (List Rat)

/-- Opaque external collaborators used by `WebCrawler`. -/
structure Env where
  /-- Models `ContentParser.get_content_and_title` (network / file I/O; may raise). -/
  fetch : String → Except String FetchResult
  /-- Models `ContentParser.extract_links(raw_html, base_url)` (may raise). -/
  extractLinks : String → String → Except String (List LinkInfo)
  /-- Models `os.path.abspath`. -/
  abspath : String → String
  /-- Models `os.path.basename`. -/
  basename : String → String
  /-- Models `os.path.splitext(...)[1]`. -/
  splitextExt : String → String
  /-- The metadata part produced by `os.path.getsize` + float formatting
  (`f"{file_size / 1024:.2f}KB"`); `none` models the `except OSError: pass`
  path.  Floating-point formatting is external to the engine. -/
  sizePart : String → Option String
  /-- Models `datetime.now().strftime("%Y-%m-%d %H:%M:%S")`. -/
  crawlDate : String

/-- Constructor arguments of `WebCrawler` that matter for the engine
(`CrawlConfig` of the spec).  `defaultDepth` is an `Int` because `-1`
means unlimited depth. -/
structure CrawlConfig where
  defaultDepth : Int
  userTopic : Option String
  topicRelevanceThreshold : Rat
  linkRelevanceThreshold : Rat
  semanticAnalyzer : Option SemanticAnalyzerM

/-- A crawl queue entry `(source, current_depth, origin_source)`. -/
structure WorkItem where
  source : String
  depth : Nat
  origin : String
deriving DecidableEq, Repr

/-- One call to `StorageManager.save_crawled_data` (the Sink's `store`). -/
structure StoreCall where
  source : String
  title : Option String
  metadataSummary : String
  contentText : String
  sourceRelevanceToTopic : Option Rat
deriving DecidableEq, Repr

/-- Mutable runtime state of one crawl run: the crawler's
`visited_sources` set and `crawl_queue`, the storage manager's
`processed_sources_cache` and the log of `save_crawled_data` calls, plus
ghost logs of every push, every dequeue-and-process event and every call
to `_extract_and_queue_links`. -/
structure CrawlState where
  visited : List String
  queue : List WorkItem
  sinkCache : List String
  storeLog : List StoreCall
  processedLog : List WorkItem
  pushLog : List WorkItem
  extractCalls : List String
deriving DecidableEq, Repr

/-- Initial crawl state; `sinkCache0` is whatever
`_load_processed_sources_from_files` preloaded into
`processed_sources_cache`. -/
def initState (sinkCache0 : List String) : CrawlState :=
  { visited := [], queue := [], sinkCache := sinkCache0, storeLog := [],
    processedLog := [], pushLog := [], extractCalls := [] }

/-- Python `str.startswith`, modelled on the character list (the library
`String.startsWith` is definitionally opaque to the kernel). -/
def strStartsWith (s pre : String) : Bool :=
  s.data.take pre.data.length == pre.data

/-- Python `str.upper`, modelled on the character list. -/
def strToUpper (s : String) : String :=
  ⟨s.data.map Char.toUpper⟩

/-- Models `source.startswith(("http://", "https://"))`. -/
def isWebSource (s : String) : Bool :=
  strStartsWith s ("http://") || strStartsWith s ("https://")

/-- Models `utils.normalize_url` as called from `add_to_crawl_queue`: the call
passes no `base_url`, so the `urljoin` branch (guarded by `if base_url
and not is_valid_url(url)`) is dead and the URL is returned unchanged. -/
def normalize_url (url : String) : String := url

/-- Models `self.semantic_analyzer and self.semantic_analyzer.is_available()`. -/
def analyzerAvailable (cfg : CrawlConfig) : Bool :=
  match cfg.semanticAnalyzer with
  | some a => a.available
  | none => false

/-- Models `WebCrawler.__init__`: `user_topic_embedding` is computed once, iff the
topic is truthy and the analyzer is present and available. -/
def initTopicEmbedding (cfg : CrawlConfig) : Option (List Rat) :=
  if truthyStr cfg.userTopic && analyzerAvailable cfg then
    match cfg.semanticAnalyzer with
    | some a => a.getEmbedding (cfg.userTopic.getD (""))
    | none => none
  else none

/-- The normalization step of `add_to_crawl_queue`: absolute-URL
normalization for web sources, `os.path.abspath` for file sources. -/
def normSource (env : Env) (source : String) : String :=
  if isWebSource source then normalize_url source else env.abspath source

/-- Models `WebCrawler.add_to_crawl_queue(sources, current_depth, origin_source)`:
normalize each source, skip it when its normalized identity is already in
`visited_sources`, otherwise insert the identity into `visited_sources` and
push `(normalized_source, current_depth, origin_source)` onto the queue.
(`storage_manager.add_to_queue` only logs and is omitted.) -/
def addToCrawlQueue (env : Env) (st : CrawlState) (sources : List String)
    (currentDepth : Nat) (originSource : String) : CrawlState :=
  sources.foldl (fun acc source =>
    if normSource env source ∈ acc.visited then acc
    else
      { acc with
        visited := acc.visited ++ [normSource env source],
        queue := acc.queue ++ [⟨normSource env source, currentDepth, originSource⟩],
        pushLog :=
          acc.pushLog ++ [⟨normSource env source, currentDepth, originSource⟩] }) st

/-- Models `StorageManager.save_crawled_data`: write the content file (recorded in
`storeLog`; the file write itself swallows its own I/O errors) and add the
source to `processed_sources_cache`. -/
def saveCrawledData (st : CrawlState) (source : String) (title : Option String)
    (metadataSummary contentText : String) (score : Option Rat) : CrawlState :=
  { st with
    storeLog := st.storeLog ++ [⟨source, title, metadataSummary, contentText, score⟩],
    sinkCache :=
      if source ∈ st.sinkCache then st.sinkCache else st.sinkCache ++ [source] }

/-- The advanced-mode filtering loop of `_extract_and_queue_links`: for each
link, score anchor-bearing links and keep those with score `≥ threshold`;
keep links without anchor text unconditionally.  A raise from
`score_link_relevance` aborts the whole loop (propagating to the caller's
`except`). -/
def filterLinksAdvanced (a : SemanticAnalyzerM) (threshold : Rat)
    (pageContent : String) : List LinkInfo → Except String (List String)
  | [] => Except.ok []
  | li :: rest =>
    if li.anchor ≠ "" then
      match a.scoreLinkRelevance (pageContent.take 1000) li.anchor with
      | Except.error e => Except.error e
      | Except.ok r =>
        match filterLinksAdvanced a threshold pageContent rest with
        | Except.error e => Except.error e
        | Except.ok tail =>
          Except.ok (if threshold ≤ r then li.url :: tail else tail)
    else
      match filterLinksAdvanced a threshold pageContent rest with
      | Except.error e => Except.error e
      | Except.ok tail => Except.ok (li.url :: tail)

/-- Models `WebCrawler._extract_and_queue_links(raw_html, source_url, current_depth,
page_content)`: extract candidate links; in advanced mode (analyzer present
and available and `link_relevance_threshold > 0.8`) filter them by anchor
relevance, otherwise take every link; enqueue the survivors at
`current_depth + 1` with origin `source_url` and return their count.  Its
own `try`/`except` turns any raise into a result of `0` with nothing
enqueued. -/
def extractAndQueueLinks (env : Env) (cfg : CrawlConfig) (st : CrawlState)
    (rawHtml sourceUrl : String) (currentDepth : Nat) (pageContent : String) :
    CrawlState × Nat :=
  let st0 := { st with extractCalls := st.extractCalls ++ [sourceUrl] }
  match env.extractLinks rawHtml sourceUrl with
  | Except.error _ => (st0, 0)
  | Except.ok linksData =>
    if linksData.isEmpty then (st0, 0)
    else
      let relevantRes : Except String (List String) :=
        if analyzerAvailable cfg && cfg.linkRelevanceThreshold > mkRat 8 10 then
          match cfg.semanticAnalyzer with
          | some a =>
            filterLinksAdvanced a cfg.linkRelevanceThreshold pageContent linksData
          | none => Except.ok (linksData.map (·.url))
        else
          Except.ok (linksData.map (·.url))
      match relevantRes with
      | Except.error _ => (st0, 0)
      | Except.ok relevantLinks =>
        if relevantLinks.isEmpty then (st0, 0)
        else
          (addToCrawlQueue env st0 relevantLinks (currentDepth + 1) sourceUrl,
           relevantLinks.length)

/-- The title variable of `_process_source` after the error/success
branch: on a truthy error it falls back (`title or ...`) to the source's
basename for file sources and to the URL itself for web sources. -/
def fetchedTitle (env : Env) (source : String) (fr : FetchResult) :
    Option String :=
  if truthyStr fr.error then
    some (pyStrOr fr.title
      (if isWebSource source then source else env.basename source))
  else fr.title

/-- The `content_text` variable of `_process_source` after the
error/success branch: reset to `""` on a truthy error. -/
def fetchedContentText (fr : FetchResult) : Option String :=
  if truthyStr fr.error then some ("") else fr.text

/-- The `metadata_summary` built by `_process_source`: the crawl date,
then either the error message or the content-kind parts (HTML page, or
extension/size for files), then the `found via` part for non-initial
origins, joined by `", "`. -/
def metadataSummaryOf (env : Env) (source originSource : String)
    (fr : FetchResult) : String :=
  let baseParts := [("crawled ") ++ env.crawlDate]
  let parts1 :=
    if truthyStr fr.error then
      baseParts ++ [("Error: ") ++ fr.error.getD ("")]
    else
      baseParts ++
        (if isWebSource source then [("HTML page")]
         else
           let ext := strToUpper (env.splitextExt source)
           [(if ext ≠ "" then ext ++ (" document") else ("File"))] ++
             (match env.sizePart source with
              | some s => [s]
              | none => []))
  let parts2 :=
    parts1 ++
      (if originSource ≠ "initial" then
        [("found via ") ++ (env.basename originSource).take 50]
       else [])
  String.intercalate (", ") parts2

/-- The semantic-analysis step of `_process_source`: the topic-relevance
score is computed iff the content is truthy, the analyzer is present and
available, and the topic embedding is truthy; otherwise the score stays
`None`.  An `error` value models a raise from `score_topic_relevance`. -/
def scoreResOf (cfg : CrawlConfig) (emb : Option (List Rat))
    (contentText1 : Option String) : Except String (Option Rat) :=
  if truthyStr contentText1 && analyzerAvailable cfg && truthyOptList emb then
    match cfg.semanticAnalyzer with
    | some a =>
      (a.scoreTopicRelevance ((contentText1.getD ("")).take 2000)
        (cfg.userTopic.getD (""))).map some
    | none => Except.ok none
  else Except.ok none

/-- Body of `WebCrawler._process_source` without its outermost
`try`/`except`: the returned `Except` is `ok` with the number of new links
on normal return, and `error` when a collaborator call raised (the state
component carries the mutations performed before the raise). -/
def processSourceTry (env : Env) (cfg : CrawlConfig) (emb : Option (List Rat))
    (st : CrawlState) (source : String) (currentDepth : Nat)
    (originSource : String) : CrawlState × Except String Nat :=
  -- `if self.storage_manager.is_source_processed(source): return 0`
  if source ∈ st.sinkCache then (st, Except.ok 0)
  else
    match env.fetch source with
    | Except.error e => (st, Except.error e)
    | Except.ok fr =>
      match scoreResOf cfg emb (fetchedContentText fr) with
      | Except.error e => (st, Except.error e)
      | Except.ok score =>
        let st1 := saveCrawledData st source (fetchedTitle env source fr)
          (metadataSummaryOf env source originSource fr)
          (pyStrOr (fetchedContentText fr) ("")) score
        if truthyStr (fetchedContentText fr) && isWebSource source &&
            truthyStr fr.rawHtml &&
            (cfg.defaultDepth == -1 || (currentDepth : Int) < cfg.defaultDepth) then
          if truthyStr cfg.userTopic &&
              (match score with
               | some r => decide (r < cfg.topicRelevanceThreshold)
               | none => false) then
            (st1, Except.ok 0)
          else
            let res := extractAndQueueLinks env cfg st1 (fr.rawHtml.getD (""))
              source currentDepth (pyStrOr (fetchedContentText fr) (""))
            (res.1, Except.ok res.2)
        else (st1, Except.ok 0)

/-- Models `WebCrawler._process_source`: the body wrapped in the per-item
`try`/`except`, which turns any raise into a return of `0`. -/
def processSource (env : Env) (cfg : CrawlConfig) (emb : Option (List Rat))
    (st : CrawlState) (source : String) (currentDepth : Nat)
    (originSource : String) : CrawlState × Nat :=
  match processSourceTry env cfg emb st source currentDepth originSource with
  | (st', Except.ok n) => (st', n)
  | (st', Except.error _) => (st', 0)

/-- One dispatch step of the crawl loop: pop the front work item and run
`_process_source` on it (recording the dequeue in `processedLog`). -/
def crawlStep (env : Env) (cfg : CrawlConfig) (emb : Option (List Rat))
    (st : CrawlState) : CrawlState :=
  match st.queue with
  | [] => st
  | item :: rest =>
    (processSource env cfg emb
      { st with queue := rest, processedLog := st.processedLog ++ [item] }
      item.source item.depth item.origin).1

/-- The dispatch loop of `_crawl_without_progress` / `_crawl_with_progress`
in its sequential (single-worker interleaving) semantics: while the queue
is non-empty, pop and process the front item.  `fuel` bounds the number of
iterations so the function is total; the termination theorem shows enough
fuel always exists when `defaultDepth ≥ 0`. -/
def crawlLoop (env : Env) (cfg : CrawlConfig) (emb : Option (List Rat)) :
    Nat → CrawlState → CrawlState
  | 0, st => st
  | n + 1, st =>
    if st.queue.isEmpty then st
    else crawlLoop env cfg emb n (crawlStep env cfg emb st)

/-- Models `WebCrawler.start_crawling(initial_sources)`: compute the topic
embedding as in `__init__`, enqueue the initial sources at depth `0` with
origin `"initial"`, and run the dispatch loop. -/
def startCrawling (env : Env) (cfg : CrawlConfig) (sinkCache0 : List String)
    (initialSources : List String) (fuel : Nat) : CrawlState :=
  crawlLoop env cfg (initTopicEmbedding cfg) fuel
    (addToCrawlQueue env (initState sinkCache0) initialSources 0 ("initial"))

/-- The depth-budget condition of `_process_source`
(`self.default_depth == -1 or current_depth < self.default_depth`). -/
def depthBudget (cfg : CrawlConfig) (d : Nat) : Prop :=
  cfg.defaultDepth = -1 ∨ (d : Int) < cfg.defaultDepth

instance (cfg : CrawlConfig) (d : Nat) : Decidable (depthBudget cfg d) := by
  unfold depthBudget
  infer_instance

/-- Frontier bookkeeping invariant of a crawl run: the push history
enumerates the visited set in insertion order, the visited set is
duplicate-free, and every pushed item is either already dequeued or still
in the queue (in order). -/
def FrontierInv (st : CrawlState) : Prop :=
  st.pushLog.map (·.source) = st.visited ∧ st.visited.Nodup ∧
    st.pushLog = st.processedLog ++ st.queue

/-- Depth/origin discipline: every pushed item either is an initial item
(origin `"initial"`, depth `0`) or was discovered while processing an item
whose source is its origin, at exactly one less depth. -/
def DepthOriginOK (st : CrawlState) : Prop :=
  ∀ i ∈ st.pushLog,
    (i.origin = "initial" ∧ i.depth = 0) ∨
      ∃ p ∈ st.processedLog, p.source = i.origin ∧ i.depth = p.depth + 1

/-- Predicate stating that `st'` extends `st` by appending the work items `new` to the queue, the
push log and (via their sources) the visited set, leaving the dequeue log
unchanged; the sink state is unconstrained. -/
def ExtendsBy (st st' : CrawlState) (new : List WorkItem) : Prop :=
  st'.visited = st.visited ++ new.map (·.source) ∧
    st'.queue = st.queue ++ new ∧
    st'.pushLog = st.pushLog ++ new ∧
    st'.processedLog = st.processedLog

/-! ### Concrete fixtures

Small concrete environments and configurations used to instantiate the
theorems below (witnesses and counterexamples).  `envA` realizes the
cyclic two-page link graph `http://a → http://b → http://a`. -/

/-- A fetcher/extractor environment over the cyclic graph `a → b → a`. -/
def envA : Env :=
  { fetch := fun _ =>
      Except.ok
        { text := some ("body"), title := some ("T"),
          rawHtml := some ("<html>"), error := none },
    extractLinks := fun _ src =>
      if src == "http://a" then
        Except.ok [{ url := "http://b", anchor := "to b" }]
      else if src == "http://b" then
        Except.ok [{ url := "http://a", anchor := "to a" }]
      else Except.ok [],
    abspath := fun s => ("/abs/") ++ s,
    basename := fun s => s,
    splitextExt := fun _ => (""),
    sizePart := fun _ => none,
    crawlDate := "2026-01-02 03:04:05" }

/-- Fetcher double whose fetch reports a failure (error tuple component). -/
def envErr : Env :=
  { envA with
    fetch := fun _ =>
      Except.ok
        { text := none, title := none, rawHtml := none,
          error := some ("ConnectionError") } }

/-- Fetcher double whose fetch call raises an exception. -/
def envRaise : Env :=
  { envA with fetch := fun _ => Except.error ("boom") }

/-- A fetch result that succeeds (no error) but has empty content text. -/
def frEmpty : FetchResult :=
  { text := some (""), title := some ("T"), rawHtml := some ("<p>hi</p>"),
    error := none }

/-- Fetcher double that succeeds (no error) but yields empty content text
for a web page. -/
def envEmptyText : Env :=
  { envA with fetch := fun _ => Except.ok frEmpty }

/-- Extractor double discovering one anchored and one anchor-less link. -/
def envLinks : Env :=
  { envA with
    extractLinks := fun _ _ =>
      Except.ok
        [{ url := "http://x", anchor := "click" },
         { url := "http://y", anchor := "" }] }

/-- Scorer double: always available, topic relevance `0.3`, link relevance
`0.1`, embeddings present. -/
def anLow : SemanticAnalyzerM :=
  { available := true,
    scoreTopicRelevance := fun _ _ => Except.ok (mkRat 3 10),
    scoreLinkRelevance := fun _ _ => Except.ok (mkRat 1 10),
    getEmbedding := fun _ => some [1] }

/-- Scorer double that is available but cannot produce a topic embedding. -/
def anNoEmb : SemanticAnalyzerM :=
  { anLow with getEmbedding := fun _ => none }

/-- Baseline configuration: depth 2, no topic, fast link mode, no scorer. -/
def cfgA : CrawlConfig :=
  { defaultDepth := 2, userTopic := none, topicRelevanceThreshold := mkRat 1 2,
    linkRelevanceThreshold := mkRat 6 10, semanticAnalyzer := none }

/-- Topic-filtering configuration: unlimited depth, topic set, threshold
`0.5`, scorer `anLow`. -/
def cfgTopic : CrawlConfig :=
  { defaultDepth := -1, userTopic := some ("quantum"),
    topicRelevanceThreshold := mkRat 1 2, linkRelevanceThreshold := mkRat 6 10,
    semanticAnalyzer := some anLow }

/-- Advanced link-mode configuration: threshold `0.9` with scorer `anLow`. -/
def cfgAdv : CrawlConfig :=
  { cfgA with
    linkRelevanceThreshold := mkRat 9 10,
    semanticAnalyzer := some anLow }

/-- High link threshold (`0.9`) but no scorer at all. -/
def cfgHighNoScorer : CrawlConfig :=
  { cfgA with
    linkRelevanceThreshold := mkRat 9 10,
    semanticAnalyzer := none }

/-- Topic set, but the scorer cannot produce a topic embedding. -/
def cfgTopicNoEmb : CrawlConfig :=
  { cfgTopic with semanticAnalyzer := some anNoEmb }

/-- The work item produced by enqueueing `http://a` as an initial source. -/
def itemA : WorkItem := { source := "http://a", depth := 0, origin := "initial" }

/-- The work item discovered on `http://a` pointing at `http://b`. -/
def itemB : WorkItem := { source := "http://b", depth := 1, origin := "http://a" }

/-- State after enqueueing `http://a` as an initial source under the
raising fetcher. -/
def stQueueA : CrawlState :=
  addToCrawlQueue envRaise (initState []) [("http://a")] 0 ("initial")

/-- Fixture: `stQueueA` with its single item popped into the dequeue log. -/
def stPopA : CrawlState :=
  { stQueueA with queue := [], processedLog := stQueueA.processedLog ++ [itemA] }

/-! ### Basic lemmas about the frontier -/

theorem addToCrawlQueue_nil (env : Env) (st : CrawlState) (d : Nat) (o : String) :
    addToCrawlQueue env st [] d o = st := rfl

theorem addToCrawlQueue_cons (env : Env) (st : CrawlState) (s : String)
    (rest : List String) (d : Nat) (o : String) :
    addToCrawlQueue env st (s :: rest) d o =
      addToCrawlQueue env
        (if normSource env s ∈ st.visited then st
         else
           { st with
             visited := st.visited ++ [normSource env s],
             queue := st.queue ++ [⟨normSource env s, d, o⟩],
             pushLog := st.pushLog ++ [⟨normSource env s, d, o⟩] })
        rest d o := rfl

set_option maxHeartbeats 1000000 in
/-- Effect of one `add_to_crawl_queue` call: some (possibly empty) list of
fresh work items, all at the given depth and origin, is appended to the
queue, the push log and (via their sources) the visited set; freshness
preserves duplicate-freedom of the visited set. -/
theorem addToCrawlQueue_spec (env : Env) (sources : List String) :
    ∀ (st : CrawlState) (d : Nat) (o : String),
      ∃ new : List WorkItem,
        addToCrawlQueue env st sources d o =
          { st with
            visited := st.visited ++ new.map (·.source),
            queue := st.queue ++ new,
            pushLog := st.pushLog ++ new } ∧
        (∀ j ∈ new, j.depth = d ∧ j.origin = o) ∧
        (st.visited.Nodup → (st.visited ++ new.map (·.source)).Nodup) := by
  induction sources with
  | nil =>
    intro st d o
    exact ⟨[], by simp [addToCrawlQueue_nil], by simp, by simp⟩
  | cons s rest ih =>
    intro st d o
    rw [addToCrawlQueue_cons]
    by_cases hmem : normSource env s ∈ st.visited
    · rw [if_pos hmem]
      exact ih st d o
    · rw [if_neg hmem]
      obtain ⟨new, heq, hprops, hnodup⟩ :=
        ih { st with
              visited := st.visited ++ [normSource env s],
              queue := st.queue ++ [⟨normSource env s, d, o⟩],
              pushLog := st.pushLog ++ [⟨normSource env s, d, o⟩] } d o
      refine ⟨⟨normSource env s, d, o⟩ :: new, ?_, ?_, ?_⟩
      · rw [heq]
        simp
      · intro j hj
        rcases List.mem_cons.mp hj with rfl | hj
        · exact ⟨rfl, rfl⟩
        · exact hprops j hj
      · intro hnd
        have h1 : (st.visited ++ [normSource env s]).Nodup := by
          simp [List.nodup_append, hnd, hmem]
        have h2 := hnodup h1
        simpa [List.append_assoc] using h2

theorem depthBudget_iff (cfg : CrawlConfig) (d : Nat) :
    (cfg.defaultDepth == -1 || (d : Int) < cfg.defaultDepth) = true ↔
      depthBudget cfg d := by
  simp [depthBudget]

/-- Case split: `_extract_and_queue_links` either only records its call (error or no
links) or hands some list of link URLs to `add_to_crawl_queue` at depth
`currentDepth + 1` with origin `sourceUrl`. -/
theorem extractAndQueueLinks_cases (env : Env) (cfg : CrawlConfig)
    (st : CrawlState) (rawHtml sourceUrl : String) (currentDepth : Nat)
    (pageContent : String) :
    ∃ rl : List String,
      (extractAndQueueLinks env cfg st rawHtml sourceUrl currentDepth
          pageContent).1 =
        addToCrawlQueue env { st with extractCalls := st.extractCalls ++ [sourceUrl] }
          rl (currentDepth + 1) sourceUrl := by
  unfold extractAndQueueLinks
  cases hx : env.extractLinks rawHtml sourceUrl with
  | error e => exact ⟨[], by simp [addToCrawlQueue_nil]⟩
  | ok linksData =>
    by_cases hempty : linksData.isEmpty
    · exact ⟨[], by simp [hempty, addToCrawlQueue_nil]⟩
    · simp only [hempty, if_neg, Bool.false_eq_true, ite_false]
      cases hr :
        (if analyzerAvailable cfg && cfg.linkRelevanceThreshold > mkRat 8 10 then
          match cfg.semanticAnalyzer with
          | some a =>
            filterLinksAdvanced a cfg.linkRelevanceThreshold pageContent linksData
          | none => Except.ok (linksData.map (·.url))
         else Except.ok (linksData.map (·.url))) with
      | error e => exact ⟨[], by simp [addToCrawlQueue_nil]⟩
      | ok rl =>
        by_cases hre : rl.isEmpty
        · exact ⟨[], by simp [hre, addToCrawlQueue_nil]⟩
        · exact ⟨rl, by simp [hre]⟩

set_option maxHeartbeats 1000000 in
/-- Effect of `_extract_and_queue_links` on the frontier state: the call is
recorded, and a list of fresh work items at depth `currentDepth + 1` with
origin `sourceUrl` is appended to the queue, push log and visited set. -/
theorem extractAndQueueLinks_effect (env : Env) (cfg : CrawlConfig)
    (st : CrawlState) (rawHtml sourceUrl : String) (currentDepth : Nat)
    (pageContent : String) :
    ∃ new : List WorkItem,
      (extractAndQueueLinks env cfg st rawHtml sourceUrl currentDepth
          pageContent).1 =
        { st with
          visited := st.visited ++ new.map (·.source),
          queue := st.queue ++ new,
          pushLog := st.pushLog ++ new,
          extractCalls := st.extractCalls ++ [sourceUrl] } ∧
      (∀ j ∈ new, j.depth = currentDepth + 1 ∧ j.origin = sourceUrl) ∧
      (st.visited.Nodup → (st.visited ++ new.map (·.source)).Nodup) := by
  obtain ⟨rl, hcase⟩ :=
    extractAndQueueLinks_cases env cfg st rawHtml sourceUrl currentDepth pageContent
  obtain ⟨new, heq, hdep, hnodup⟩ :=
    addToCrawlQueue_spec env rl
      { st with extractCalls := st.extractCalls ++ [sourceUrl] }
      (currentDepth + 1) sourceUrl
  refine ⟨new, ?_, hdep, hnodup⟩
  rw [hcase, heq]

theorem processSource_fst (env : Env) (cfg : CrawlConfig)
    (emb : Option (List Rat)) (st : CrawlState) (source : String)
    (currentDepth : Nat) (originSource : String) :
    (processSource env cfg emb st source currentDepth originSource).1 =
      (processSourceTry env cfg emb st source currentDepth originSource).1 := by
  unfold processSource
  cases h : processSourceTry env cfg emb st source currentDepth originSource with
  | mk st' r => cases r <;> rfl


theorem extendsBy_nil (st : CrawlState) : ExtendsBy st st [] := by
  simp [ExtendsBy]

theorem extendsBy_save (st : CrawlState) (source : String)
    (title : Option String) (m c : String) (r : Option Rat) :
    ExtendsBy st (saveCrawledData st source title m c r) [] := by
  simp [ExtendsBy, saveCrawledData]

theorem extendsBy_trans {st st' st'' : CrawlState} {new new' : List WorkItem}
    (h : ExtendsBy st st' new) (h' : ExtendsBy st' st'' new') :
    ExtendsBy st st'' (new ++ new') := by
  obtain ⟨hv, hq, hp, hl⟩ := h
  obtain ⟨hv', hq', hp', hl'⟩ := h'
  refine ⟨?_, ?_, ?_, ?_⟩
  · rw [hv', hv]; simp [List.append_assoc]
  · rw [hq', hq]; simp [List.append_assoc]
  · rw [hp', hp]; simp [List.append_assoc]
  · rw [hl', hl]

theorem extractAndQueueLinks_extends (env : Env) (cfg : CrawlConfig)
    (st : CrawlState) (rawHtml sourceUrl : String) (currentDepth : Nat)
    (pageContent : String) :
    ∃ new : List WorkItem,
      ExtendsBy st
        (extractAndQueueLinks env cfg st rawHtml sourceUrl currentDepth
          pageContent).1 new ∧
      (∀ j ∈ new, j.depth = currentDepth + 1 ∧ j.origin = sourceUrl) ∧
      (st.visited.Nodup → (st.visited ++ new.map (·.source)).Nodup) := by
  obtain ⟨new, heq, hdep, hnodup⟩ :=
    extractAndQueueLinks_effect env cfg st rawHtml sourceUrl currentDepth
      pageContent
  exact ⟨new, by rw [heq]; exact ⟨rfl, rfl, rfl, rfl⟩, hdep, hnodup⟩

/-- Branch helper for `_process_source`: processing that first persists via
the Sink (any arguments) and then runs `_extract_and_queue_links` extends
the frontier state by fresh deeper items. -/
theorem extract_branch_extends (env : Env) (cfg : CrawlConfig)
    (st : CrawlState) (source : String) (title : Option String)
    (m c : String) (r : Option Rat) (rawHtml : String) (currentDepth : Nat)
    (pageContent : String) :
    ∃ new : List WorkItem,
      ExtendsBy st
        (extractAndQueueLinks env cfg (saveCrawledData st source title m c r)
          rawHtml source currentDepth pageContent).1 new ∧
      (∀ j ∈ new, j.depth = currentDepth + 1 ∧ j.origin = source) ∧
      (st.visited.Nodup → (st.visited ++ new.map (·.source)).Nodup) := by
  obtain ⟨new, hext, hdep, hnodup⟩ :=
    extractAndQueueLinks_extends env cfg (saveCrawledData st source title m c r)
      rawHtml source currentDepth pageContent
  refine ⟨new, ?_, hdep, ?_⟩
  · have h0 := extendsBy_trans (extendsBy_save st source title m c r) hext
    simpa using h0
  · intro hnd
    have hv : (saveCrawledData st source title m c r).visited = st.visited := rfl
    rw [hv] at hnodup
    exact hnodup hnd


set_option maxHeartbeats 1000000 in
/-- Effect of `_process_source` on the frontier state: the state is
extended by some list of fresh work items, all at depth
`currentDepth + 1` with origin `source`; no items are added once the
depth budget is exhausted. -/
theorem processSourceTry_extends (env : Env) (cfg : CrawlConfig)
    (emb : Option (List Rat)) (st : CrawlState) (source : String)
    (currentDepth : Nat) (originSource : String) :
    ∃ new : List WorkItem,
      ExtendsBy st
        (processSourceTry env cfg emb st source currentDepth originSource).1
        new ∧
      (∀ j ∈ new, j.depth = currentDepth + 1 ∧ j.origin = source) ∧
      (st.visited.Nodup → (st.visited ++ new.map (·.source)).Nodup) ∧
      (¬ depthBudget cfg currentDepth → new = []) := by
  unfold processSourceTry
  split
  · exact ⟨[], extendsBy_nil st, by simp, by simp, by simp⟩
  · split
    · exact ⟨[], extendsBy_nil st, by simp, by simp, by simp⟩
    · split
      · exact ⟨[], extendsBy_nil st, by simp, by simp, by simp⟩
      · split
        · rename_i hgate
          have hbud : depthBudget cfg currentDepth := by
            rw [← depthBudget_iff]
            simp only [Bool.and_eq_true] at hgate
            exact hgate.2
          split
          · exact ⟨[], extendsBy_save _ _ _ _ _ _, by simp, by simp, by simp⟩
          · refine Exists.imp
              (fun new h => ⟨h.1, h.2.1, h.2.2, fun hnb => absurd hbud hnb⟩)
              (extract_branch_extends env cfg st source _ _ _ _ _ currentDepth _)
        · exact ⟨[], extendsBy_save _ _ _ _ _ _, by simp, by simp, by simp⟩

theorem processSource_extends (env : Env) (cfg : CrawlConfig)
    (emb : Option (List Rat)) (st : CrawlState) (source : String)
    (currentDepth : Nat) (originSource : String) :
    ∃ new : List WorkItem,
      ExtendsBy st
        (processSource env cfg emb st source currentDepth originSource).1 new ∧
      (∀ j ∈ new, j.depth = currentDepth + 1 ∧ j.origin = source) ∧
      (st.visited.Nodup → (st.visited ++ new.map (·.source)).Nodup) ∧
      (¬ depthBudget cfg currentDepth → new = []) := by
  rw [processSource_fst]
  exact processSourceTry_extends env cfg emb st source currentDepth originSource

theorem crawlStep_nil (env : Env) (cfg : CrawlConfig) (emb : Option (List Rat))
    (st : CrawlState) (hq : st.queue = []) :
    crawlStep env cfg emb st = st := by
  unfold crawlStep
  rw [hq]

theorem crawlStep_cons (env : Env) (cfg : CrawlConfig) (emb : Option (List Rat))
    (st : CrawlState) (i : WorkItem) (rest : List WorkItem)
    (hq : st.queue = i :: rest) :
    crawlStep env cfg emb st =
      (processSource env cfg emb
        { st with queue := rest, processedLog := st.processedLog ++ [i] }
        i.source i.depth i.origin).1 := by
  unfold crawlStep
  rw [hq]

/-- Effect of one dispatch step on a non-empty queue: the front item moves
to the dequeue log and fresh items one level deeper are appended. -/
theorem crawlStep_extends (env : Env) (cfg : CrawlConfig)
    (emb : Option (List Rat)) (st : CrawlState) (i : WorkItem)
    (rest : List WorkItem) (hq : st.queue = i :: rest) :
    ∃ new : List WorkItem,
      (crawlStep env cfg emb st).visited = st.visited ++ new.map (·.source) ∧
      (crawlStep env cfg emb st).queue = rest ++ new ∧
      (crawlStep env cfg emb st).pushLog = st.pushLog ++ new ∧
      (crawlStep env cfg emb st).processedLog = st.processedLog ++ [i] ∧
      (∀ j ∈ new, j.depth = i.depth + 1 ∧ j.origin = i.source) ∧
      (st.visited.Nodup → (st.visited ++ new.map (·.source)).Nodup) ∧
      (¬ depthBudget cfg i.depth → new = []) := by
  obtain ⟨new, ⟨hv, hq', hp, hl⟩, hdep, hnodup, hbud⟩ :=
    processSource_extends env cfg emb
      { st with queue := rest, processedLog := st.processedLog ++ [i] }
      i.source i.depth i.origin
  rw [crawlStep_cons env cfg emb st i rest hq]
  exact ⟨new, hv, hq', hp, hl, hdep, hnodup, hbud⟩

theorem frontierInv_init (sinkCache0 : List String) :
    FrontierInv (initState sinkCache0) := by
  simp [FrontierInv, initState]

theorem frontierInv_add (env : Env) (st : CrawlState) (sources : List String)
    (d : Nat) (o : String) (h : FrontierInv st) :
    FrontierInv (addToCrawlQueue env st sources d o) := by
  obtain ⟨new, heq, _, hnodup⟩ := addToCrawlQueue_spec env sources st d o
  obtain ⟨h1, h2, h3⟩ := h
  rw [heq]
  refine ⟨?_, hnodup h2, ?_⟩
  · simp [h1]
  · rw [h3]
    simp [List.append_assoc]

theorem frontierInv_step (env : Env) (cfg : CrawlConfig)
    (emb : Option (List Rat)) (st : CrawlState) (h : FrontierInv st) :
    FrontierInv (crawlStep env cfg emb st) := by
  cases hq : st.queue with
  | nil => rw [crawlStep_nil env cfg emb st hq]; exact h
  | cons i rest =>
    obtain ⟨new, hv, hq', hp, hl, _, hnodup, _⟩ :=
      crawlStep_extends env cfg emb st i rest hq
    obtain ⟨h1, h2, h3⟩ := h
    refine ⟨?_, ?_, ?_⟩
    · rw [hp, hv]
      simp [h1]
    · rw [hv]
      exact hnodup h2
    · rw [hp, hl, hq', h3, hq]
      simp [List.append_assoc]

theorem frontierInv_loop (env : Env) (cfg : CrawlConfig)
    (emb : Option (List Rat)) :
    ∀ (n : Nat) (st : CrawlState), FrontierInv st →
      FrontierInv (crawlLoop env cfg emb n st) := by
  intro n
  induction n with
  | zero => exact fun st h => h
  | succ n ih =>
    intro st h
    unfold crawlLoop
    split
    · exact h
    · exact ih _ (frontierInv_step env cfg emb st h)

theorem depthOriginOK_add_initial (env : Env) (st : CrawlState)
    (sources : List String) (h : DepthOriginOK st) :
    DepthOriginOK (addToCrawlQueue env st sources 0 ("initial")) := by
  obtain ⟨new, heq, hdep, _⟩ := addToCrawlQueue_spec env sources st 0 ("initial")
  rw [heq]
  intro j hj
  rcases List.mem_append.mp hj with hj | hj
  · rcases h j hj with h0 | ⟨p, hp, hps⟩
    · exact Or.inl h0
    · exact Or.inr ⟨p, hp, hps⟩
  · exact Or.inl ⟨(hdep j hj).2, (hdep j hj).1⟩

theorem depthOriginOK_step (env : Env) (cfg : CrawlConfig)
    (emb : Option (List Rat)) (st : CrawlState) (h : DepthOriginOK st) :
    DepthOriginOK (crawlStep env cfg emb st) := by
  cases hq : st.queue with
  | nil => rw [crawlStep_nil env cfg emb st hq]; exact h
  | cons i rest =>
    obtain ⟨new, _, _, hp, hl, hdep, _, _⟩ :=
      crawlStep_extends env cfg emb st i rest hq
    intro j hj
    rw [hp] at hj
    rcases List.mem_append.mp hj with hj | hj
    · rcases h j hj with h0 | ⟨p, hpmem, hps⟩
      · exact Or.inl h0
      · exact Or.inr ⟨p, by rw [hl]; exact List.mem_append_left _ hpmem, hps⟩
    · refine Or.inr ⟨i, ?_, ?_, ?_⟩
      · rw [hl]
        exact List.mem_append_right _ (by simp)
      · exact ((hdep j hj).2).symm
      · exact (hdep j hj).1

theorem depthOriginOK_loop (env : Env) (cfg : CrawlConfig)
    (emb : Option (List Rat)) :
    ∀ (n : Nat) (st : CrawlState), DepthOriginOK st →
      DepthOriginOK (crawlLoop env cfg emb n st) := by
  intro n
  induction n with
  | zero => exact fun st h => h
  | succ n ih =>
    intro st h
    unfold crawlLoop
    split
    · exact h
    · exact ih _ (depthOriginOK_step env cfg emb st h)

theorem crawlLoop_succ (env : Env) (cfg : CrawlConfig)
    (emb : Option (List Rat)) (n : Nat) (st : CrawlState) :
    crawlLoop env cfg emb (n + 1) st =
      if st.queue.isEmpty then st
      else crawlLoop env cfg emb n (crawlStep env cfg emb st) := rfl

theorem crawlLoop_queue_empty (env : Env) (cfg : CrawlConfig)
    (emb : Option (List Rat)) :
    ∀ (n : Nat) (st : CrawlState), st.queue = [] →
      crawlLoop env cfg emb n st = st := by
  intro n
  induction n with
  | zero => exact fun st _ => rfl
  | succ n _ =>
    intro st hq
    unfold crawlLoop
    rw [hq]
    rfl

theorem crawlLoop_add (env : Env) (cfg : CrawlConfig) (emb : Option (List Rat)) :
    ∀ (m n : Nat) (st : CrawlState),
      crawlLoop env cfg emb (m + n) st =
        crawlLoop env cfg emb n (crawlLoop env cfg emb m st) := by
  intro m
  induction m with
  | zero =>
    intro n st
    rw [Nat.zero_add]
    rfl
  | succ m ih =>
    intro n st
    rw [Nat.succ_add]
    by_cases hq : st.queue.isEmpty
    · have hqe : st.queue = [] := List.isEmpty_iff.mp hq
      rw [crawlLoop_queue_empty env cfg emb _ st hqe,
        crawlLoop_queue_empty env cfg emb _ st hqe,
        crawlLoop_queue_empty env cfg emb _ st hqe]
    · have h1 : crawlLoop env cfg emb (m + n + 1) st =
          crawlLoop env cfg emb (m + n) (crawlStep env cfg emb st) := by
        rw [crawlLoop_succ, if_neg hq]
      have h2 : crawlLoop env cfg emb (m + 1) st =
          crawlLoop env cfg emb m (crawlStep env cfg emb st) := by
        rw [crawlLoop_succ, if_neg hq]
      rw [h1, h2, ih]

/-- Processing one BFS layer: running the loop for as many steps as there
are items of depth `d` at the front of the queue consumes exactly those
items and leaves the remaining queue followed by fresh depth-`d + 1`
items; nothing is added once the depth budget at `d` is exhausted. -/
theorem crawlLoop_layer (env : Env) (cfg : CrawlConfig)
    (emb : Option (List Rat)) (d : Nat) :
    ∀ (front : List WorkItem) (st : CrawlState) (back : List WorkItem),
      st.queue = front ++ back →
      (∀ j ∈ front, j.depth = d) →
      ∃ new : List WorkItem,
        (crawlLoop env cfg emb front.length st).queue = back ++ new ∧
        (∀ j ∈ new, j.depth = d + 1) ∧
        (¬ depthBudget cfg d → new = []) := by
  intro front
  induction front with
  | nil =>
    intro st back hq _
    exact ⟨[], by simpa using hq, by simp, by simp⟩
  | cons i front' ih =>
    intro st back hq hfr
    have hq' : st.queue = i :: (front' ++ back) := by simpa using hq
    obtain ⟨newi, _, hqs, _, _, hdep, _, hbud⟩ :=
      crawlStep_extends env cfg emb st i (front' ++ back) hq'
    have hne : st.queue.isEmpty = false := by rw [hq']; rfl
    have hloop : crawlLoop env cfg emb (i :: front').length st =
        crawlLoop env cfg emb front'.length (crawlStep env cfg emb st) := by
      rw [List.length_cons, crawlLoop_succ, hne]
      rfl
    rw [hloop]
    have hqs' : (crawlStep env cfg emb st).queue = front' ++ (back ++ newi) := by
      rw [hqs]
      simp [List.append_assoc]
    have hfr' : ∀ j ∈ front', j.depth = d := fun j hj =>
      hfr j (List.mem_cons_of_mem _ hj)
    obtain ⟨new', hq2, hdep2, hbud2⟩ :=
      ih (crawlStep env cfg emb st) (back ++ newi) hqs' hfr'
    have hdi : i.depth = d := hfr i (List.mem_cons_self _ _)
    refine ⟨newi ++ new', ?_, ?_, ?_⟩
    · rw [hq2]
      simp [List.append_assoc]
    · intro j hj
      rcases List.mem_append.mp hj with hj | hj
      · have h1 := (hdep j hj).1
        rwa [hdi] at h1
      · exact hdep2 j hj
    · intro hnb
      have h1 : newi = [] := hbud (by rwa [hdi])
      have h2 : new' = [] := hbud2 hnb
      simp [h1, h2]

/-- Layered termination: when every queued item sits at depth `d` and the
depth limit is at most `d + b`, some number of loop steps empties the
queue. -/
theorem crawlLoop_layers_terminate (env : Env) (cfg : CrawlConfig)
    (emb : Option (List Rat)) (hcfg : 0 ≤ cfg.defaultDepth) :
    ∀ (b : Nat) (st : CrawlState) (d : Nat),
      (∀ j ∈ st.queue, j.depth = d) →
      cfg.defaultDepth ≤ (d : Int) + (b : Int) →
      ∃ n : Nat, (crawlLoop env cfg emb n st).queue = [] := by
  intro b
  induction b with
  | zero =>
    intro st d hd hle
    have hnb : ¬ depthBudget cfg d := by
      rintro (h | h) <;> omega
    obtain ⟨new, hq, _, hbud⟩ :=
      crawlLoop_layer env cfg emb d st.queue st [] (by simp) hd
    refine ⟨st.queue.length, ?_⟩
    rw [hq, hbud hnb]
    rfl
  | succ b ih =>
    intro st d hd hle
    obtain ⟨new, hq, hdep, _⟩ :=
      crawlLoop_layer env cfg emb d st.queue st [] (by simp) hd
    have hq2 : (crawlLoop env cfg emb st.queue.length st).queue = new := by
      simpa using hq
    obtain ⟨n2, hfin⟩ :=
      ih (crawlLoop env cfg emb st.queue.length st) (d + 1)
        (by rw [hq2]; exact hdep) (by push_cast at hle ⊢; omega)
    exact ⟨st.queue.length + n2, by rw [crawlLoop_add]; exact hfin⟩

theorem scoreResOf_gate_false (cfg : CrawlConfig) (emb : Option (List Rat))
    (ct : Option String)
    (h : (truthyStr ct && analyzerAvailable cfg && truthyOptList emb) = false) :
    scoreResOf cfg emb ct = Except.ok none := by
  unfold scoreResOf
  rw [h]
  rfl

theorem scoreResOf_emb_false (cfg : CrawlConfig) (emb : Option (List Rat))
    (ct : Option String) (h : truthyOptList emb = false) :
    scoreResOf cfg emb ct = Except.ok none :=
  scoreResOf_gate_false cfg emb ct (by rw [h, Bool.and_false])

theorem processSource_of_try_ok (env : Env) (cfg : CrawlConfig)
    (emb : Option (List Rat)) (st : CrawlState) (source : String)
    (currentDepth : Nat) (originSource : String) (st2 : CrawlState) (n : Nat)
    (h : processSourceTry env cfg emb st source currentDepth originSource =
      (st2, Except.ok n)) :
    processSource env cfg emb st source currentDepth originSource = (st2, n) := by
  unfold processSource
  rw [h]

/-- Claim C5: A dequeued source not yet marked processed by the Sink whose
fetch reports an error still produces exactly one `Sink.store` call: empty
content text, the error message recorded in the metadata summary, the
title falling back (`title or ...`) to the basename (file sources) or the
URL (web sources); the item contributes zero links and the run state is
otherwise untouched. -/
theorem fetch_failure_C5 (env : Env) (cfg : CrawlConfig)
    (emb : Option (List Rat)) (st : CrawlState) (source : String)
    (currentDepth : Nat) (originSource : String) (fr : FetchResult)
    (msg : String) (hproc : source ∉ st.sinkCache)
    (hfetch : env.fetch source = Except.ok fr)
    (herr : fr.error = some msg) (hmsg : msg ≠ "") :
    processSource env cfg emb st source currentDepth originSource =
      ({ st with
          storeLog := st.storeLog ++
            [⟨source,
              some (pyStrOr fr.title
                (if isWebSource source then source else env.basename source)),
              String.intercalate (", ")
                ([("crawled ") ++ env.crawlDate, ("Error: ") ++ msg] ++
                  (if originSource ≠ "initial" then
                    [("found via ") ++ (env.basename originSource).take 50]
                   else [])),
              "", none⟩],
          sinkCache := st.sinkCache ++ [source] }, 0) := by
  have htr : truthyStr fr.error = true := by
    rw [herr]
    simp [truthyStr, hmsg]
  have hct : fetchedContentText fr = some ("") := by
    simp [fetchedContentText, htr]
  have hctf : truthyStr (fetchedContentText fr) = false := by
    rw [hct]
    simp [truthyStr]
  have hsr : scoreResOf cfg emb (fetchedContentText fr) = Except.ok none :=
    scoreResOf_gate_false cfg emb _ (by rw [hctf]; simp)
  have h1 : fetchedTitle env source fr =
      some (pyStrOr fr.title
        (if isWebSource source then source else env.basename source)) := by
    simp [fetchedTitle, htr]
  have h2 : metadataSummaryOf env source originSource fr =
      String.intercalate (", ")
        ([("crawled ") ++ env.crawlDate, ("Error: ") ++ msg] ++
          (if originSource ≠ "initial" then
            [("found via ") ++ (env.basename originSource).take 50]
           else [])) := by
    simp only [metadataSummaryOf]
    rw [if_pos htr, herr]
    rfl
  have h3 : pyStrOr (fetchedContentText fr) ("") = "" := by
    rw [hct]
    rfl
  unfold processSource processSourceTry
  rw [if_neg hproc]
  simp only [hfetch, hsr, hctf, Bool.false_and, Bool.if_false_left]
  simp only [Bool.and_eq_false_imp, Bool.false_eq_true, if_false]
  rw [h1, h2, h3]
  unfold saveCrawledData
  rw [if_neg hproc]

/-- Claim C4: When the topic-relevance score is computed and falls below the
topic threshold (topic configured), the source's links are not extracted
or enqueued (frontier and extraction log untouched, zero links returned),
but its content is still persisted via exactly one `Sink.store` call
carrying exactly that computed score. -/
theorem topic_pruning_C4 (env : Env) (cfg : CrawlConfig)
    (emb : Option (List Rat)) (st : CrawlState) (source : String)
    (currentDepth : Nat) (originSource : String) (fr : FetchResult)
    (a : SemanticAnalyzerM) (r : Rat)
    (hproc : source ∉ st.sinkCache)
    (hfetch : env.fetch source = Except.ok fr)
    (hnoerr : truthyStr fr.error = false)
    (hcontent : truthyStr fr.text = true)
    (han : cfg.semanticAnalyzer = some a)
    (havail : a.available = true)
    (hemb : truthyOptList emb = true)
    (hscore : a.scoreTopicRelevance ((fr.text.getD ("")).take 2000)
        (cfg.userTopic.getD ("")) = Except.ok r)
    (htopic : truthyStr cfg.userTopic = true)
    (hlow : r < cfg.topicRelevanceThreshold) :
    processSource env cfg emb st source currentDepth originSource =
      ({ st with
          storeLog := st.storeLog ++
            [⟨source, fr.title, metadataSummaryOf env source originSource fr,
              fr.text.getD (""), some r⟩],
          sinkCache := st.sinkCache ++ [source] }, 0) := by
  have hct : fetchedContentText fr = fr.text := by
    simp [fetchedContentText, hnoerr]
  have haa : analyzerAvailable cfg = true := by
    simp [analyzerAvailable, han, havail]
  have hsr : scoreResOf cfg emb (fetchedContentText fr) = Except.ok (some r) := by
    simp only [scoreResOf, hct, hcontent, haa, hemb, Bool.and_self, han,
      if_true, Bool.true_and, Bool.and_true]
    rw [hscore]
    rfl
  have h1 : fetchedTitle env source fr = fr.title := by
    simp [fetchedTitle, hnoerr]
  have h3 : pyStrOr (fetchedContentText fr) ("") = fr.text.getD ("") := by
    rw [hct]
    cases htext : fr.text with
    | none =>
      rw [htext] at hcontent
      simp [truthyStr] at hcontent
    | some s =>
      rw [htext] at hcontent
      simp only [truthyStr, Bool.not_eq_true'] at hcontent
      simp [pyStrOr, hcontent]
  have hd : decide (r < cfg.topicRelevanceThreshold) = true := decide_eq_true hlow
  apply processSource_of_try_ok
  unfold processSourceTry
  rw [if_neg hproc]
  simp only [hfetch, hsr]
  rw [h1, h3]
  split
  · simp only [htopic, hd, Bool.and_self, eq_self_iff_true, if_true]
    unfold saveCrawledData
    rw [if_neg hproc]
  · unfold saveCrawledData
    rw [if_neg hproc]

/-- A raise inside the body of `_process_source` can only come from the
fetch call or the topic-scoring call, both of which precede every state
mutation, so the state is returned exactly as it was. -/
theorem processSourceTry_error_state (env : Env) (cfg : CrawlConfig)
    (emb : Option (List Rat)) (st : CrawlState) (source : String)
    (currentDepth : Nat) (originSource : String) (st' : CrawlState)
    (e : String)
    (h : processSourceTry env cfg emb st source currentDepth originSource =
      (st', Except.error e)) :
    st' = st := by
  unfold processSourceTry at h
  split at h
  · simp at h
  · split at h
    · simp only [Prod.mk.injEq] at h
      exact h.1.symm
    · split at h
      · simp only [Prod.mk.injEq] at h
        exact h.1.symm
      · split at h
        · split at h <;> simp at h
        · simp at h

/-- Claim C9: Per-item error containment: when the body of `_process_source`
raises for the item at the head of the queue, the per-item `except`
returns zero links, the crawl state is exactly the popped state (no
enqueues, no visited-set or store changes), and the dispatch loop simply
continues with the remaining items. -/
theorem worker_error_containment_C9 (env : Env) (cfg : CrawlConfig)
    (emb : Option (List Rat)) (st : CrawlState) (i : WorkItem)
    (rest : List WorkItem) (st' : CrawlState) (e : String)
    (hq : st.queue = i :: rest)
    (herr : processSourceTry env cfg emb
        { st with queue := rest, processedLog := st.processedLog ++ [i] }
        i.source i.depth i.origin = (st', Except.error e)) :
    st' = { st with queue := rest, processedLog := st.processedLog ++ [i] } ∧
    processSource env cfg emb
        { st with queue := rest, processedLog := st.processedLog ++ [i] }
        i.source i.depth i.origin =
      ({ st with queue := rest, processedLog := st.processedLog ++ [i] }, 0) ∧
    crawlStep env cfg emb st =
      { st with queue := rest, processedLog := st.processedLog ++ [i] } ∧
    (∀ n : Nat, crawlLoop env cfg emb (n + 1) st =
      crawlLoop env cfg emb n (crawlStep env cfg emb st)) := by
  have hst' : st' = { st with queue := rest, processedLog := st.processedLog ++ [i] } :=
    processSourceTry_error_state env cfg emb _ i.source i.depth i.origin st' e herr
  have hps : processSource env cfg emb
      { st with queue := rest, processedLog := st.processedLog ++ [i] }
      i.source i.depth i.origin =
      ({ st with queue := rest, processedLog := st.processedLog ++ [i] }, 0) := by
    unfold processSource
    rw [herr, hst']
  refine ⟨hst', hps, ?_, ?_⟩
  · rw [crawlStep_cons env cfg emb st i rest hq, hps]
  · intro n
    rw [crawlLoop_succ]
    have hne : st.queue.isEmpty = false := by rw [hq]; rfl
    rw [hne]
    rfl

/-- With a scorer that totally computes `f`, the advanced filtering loop
keeps exactly the links whose anchor is empty or whose score against the
page excerpt reaches the threshold, in discovery order. -/
theorem filterLinksAdvanced_total (a : SemanticAnalyzerM) (thr : Rat)
    (content : String) (f : String → String → Rat)
    (hf : ∀ s t, a.scoreLinkRelevance s t = Except.ok (f s t)) :
    ∀ links : List LinkInfo,
      filterLinksAdvanced a thr content links =
        Except.ok ((links.filter
          (fun li => li.anchor == "" ||
            thr ≤ f (content.take 1000) li.anchor)).map (·.url)) := by
  intro links
  induction links with
  | nil => rfl
  | cons li rest ih =>
    unfold filterLinksAdvanced
    by_cases han : li.anchor = ""
    · rw [if_neg (not_not_intro han)]
      rw [ih]
      simp [List.filter_cons, han]
    · rw [if_pos han, hf, ih]
      by_cases hr : thr ≤ f (content.take 1000) li.anchor
      · simp [List.filter_cons, han, hr]
      · simp [List.filter_cons, han, hr]

/-- When advanced mode is off (threshold not above `0.8`, or no available
analyzer), `_extract_and_queue_links` accepts every discovered link and
enqueues them all at the next depth. -/
theorem extractAndQueueLinks_all (env : Env) (cfg : CrawlConfig)
    (st : CrawlState) (rawHtml sourceUrl : String) (currentDepth : Nat)
    (pageContent : String) (links : List LinkInfo)
    (hl : env.extractLinks rawHtml sourceUrl = Except.ok links)
    (hmode : (analyzerAvailable cfg &&
      cfg.linkRelevanceThreshold > mkRat 8 10) = false) :
    extractAndQueueLinks env cfg st rawHtml sourceUrl currentDepth
        pageContent =
      (addToCrawlQueue env
        { st with extractCalls := st.extractCalls ++ [sourceUrl] }
        (links.map (·.url)) (currentDepth + 1) sourceUrl,
       links.length) := by
  unfold extractAndQueueLinks
  simp only [hl]
  cases links with
  | nil => simp [addToCrawlQueue_nil]
  | cons l ls =>
    simp only [List.isEmpty_cons, Bool.false_eq_true, if_false, hmode]
    simp [List.length_map]

/-- Claim C10: When `linkThreshold > 0.8` but no relevance scorer is
available (`semantic_analyzer` absent or `is_available()` false), link
filtering silently falls back to the fast path: every discovered link —
anchored or not — is accepted and handed to the frontier (fail-open). -/
theorem link_filter_failopen_C10 (env : Env) (cfg : CrawlConfig)
    (st : CrawlState) (rawHtml sourceUrl : String) (currentDepth : Nat)
    (pageContent : String) (links : List LinkInfo)
    (hl : env.extractLinks rawHtml sourceUrl = Except.ok links)
    (hun : analyzerAvailable cfg = false)
    (_hthr : cfg.linkRelevanceThreshold > mkRat 8 10) :
    extractAndQueueLinks env cfg st rawHtml sourceUrl currentDepth
        pageContent =
      (addToCrawlQueue env
        { st with extractCalls := st.extractCalls ++ [sourceUrl] }
        (links.map (·.url)) (currentDepth + 1) sourceUrl,
       links.length) :=
  extractAndQueueLinks_all env cfg st rawHtml sourceUrl currentDepth
    pageContent links hl (by rw [hun, Bool.false_and])

/-- Claim C3: Link-filter mode is chosen solely by `linkThreshold`: at or
below `0.8` every discovered link is accepted with no relevance
computation (for every scorer `f`); above `0.8` with an available scorer,
an anchored link is accepted iff its score reaches the threshold, and
anchor-less links are always accepted. -/
theorem link_filter_modes_C3 (env : Env) (cfg : CrawlConfig)
    (st : CrawlState) (rawHtml sourceUrl : String) (currentDepth : Nat)
    (pageContent : String) (links : List LinkInfo)
    (f : String → String → Rat)
    (hl : env.extractLinks rawHtml sourceUrl = Except.ok links)
    (hf : ∀ a, cfg.semanticAnalyzer = some a →
      ∀ s t, a.scoreLinkRelevance s t = Except.ok (f s t)) :
    (cfg.linkRelevanceThreshold ≤ mkRat 8 10 →
      extractAndQueueLinks env cfg st rawHtml sourceUrl currentDepth
          pageContent =
        (addToCrawlQueue env
          { st with extractCalls := st.extractCalls ++ [sourceUrl] }
          (links.map (·.url)) (currentDepth + 1) sourceUrl,
         links.length)) ∧
    (∀ a, cfg.semanticAnalyzer = some a → a.available = true →
      cfg.linkRelevanceThreshold > mkRat 8 10 →
      extractAndQueueLinks env cfg st rawHtml sourceUrl currentDepth
          pageContent =
        (addToCrawlQueue env
          { st with extractCalls := st.extractCalls ++ [sourceUrl] }
          ((links.filter (fun li => li.anchor == "" ||
            cfg.linkRelevanceThreshold ≤
              f (pageContent.take 1000) li.anchor)).map (·.url))
          (currentDepth + 1) sourceUrl,
         ((links.filter (fun li => li.anchor == "" ||
            cfg.linkRelevanceThreshold ≤
              f (pageContent.take 1000) li.anchor)).map (·.url)).length)) := by
  constructor
  · intro hthr
    refine extractAndQueueLinks_all env cfg st rawHtml sourceUrl currentDepth
      pageContent links hl ?_
    have h8 : (cfg.linkRelevanceThreshold > mkRat 8 10) = False := by
      simp [not_lt.mpr hthr]
    simp [h8]
  · intro a han havail hthr
    have haa : analyzerAvailable cfg = true := by
      simp [analyzerAvailable, han, havail]
    have hcond : (analyzerAvailable cfg &&
        cfg.linkRelevanceThreshold > mkRat 8 10) = true := by
      rw [haa]
      simp [hthr]
    unfold extractAndQueueLinks
    simp only [hl]
    cases links with
    | nil => simp [addToCrawlQueue_nil, filterLinksAdvanced]
    | cons l ls =>
      simp only [List.isEmpty_cons, Bool.false_eq_true, if_false, hcond,
        if_true, han]
      rw [filterLinksAdvanced_total a cfg.linkRelevanceThreshold pageContent f
        (hf a han)]
      by_cases hfe : (((l :: ls).filter (fun li => li.anchor == "" ||
          cfg.linkRelevanceThreshold ≤
            f (pageContent.take 1000) li.anchor)).map (·.url)).isEmpty
      · have hnil := List.isEmpty_iff.mp hfe
        simp only [hnil, List.isEmpty_nil, if_true, addToCrawlQueue_nil]
        rfl
      · simp only [hfe, Bool.false_eq_true, if_false]

theorem extractAndQueueLinks_extractCalls (env : Env) (cfg : CrawlConfig)
    (st : CrawlState) (rawHtml sourceUrl : String) (currentDepth : Nat)
    (pageContent : String) :
    (extractAndQueueLinks env cfg st rawHtml sourceUrl currentDepth
        pageContent).1.extractCalls = st.extractCalls ++ [sourceUrl] := by
  obtain ⟨rl, hc⟩ :=
    extractAndQueueLinks_cases env cfg st rawHtml sourceUrl currentDepth
      pageContent
  obtain ⟨new, heq, _, _⟩ :=
    addToCrawlQueue_spec env rl
      { st with extractCalls := st.extractCalls ++ [sourceUrl] }
      (currentDepth + 1) sourceUrl
  rw [hc, heq]

set_option maxHeartbeats 1000000 in
/-- Claim C2, amended: For a dequeued item not yet marked processed whose
fetch call returns a result tuple (and whose topic scoring, when invoked,
returns a score `r`), link extraction is performed if and only if: the
resulting content text is non-empty, the source is a web source, the raw
markup is non-empty, the depth budget remains, and — when a topic is set
and a score was computed — `r` is not below the topic threshold.  (This
amends the claim's "fetch succeeded" to "content text non-empty and raw
markup non-empty": a successful fetch with empty content or markup does
not trigger link extraction.) -/
theorem link_gate_C2 (env : Env) (cfg : CrawlConfig) (emb : Option (List Rat))
    (st : CrawlState) (source : String) (currentDepth : Nat)
    (originSource : String) (fr : FetchResult) (r : Rat)
    (hproc : source ∉ st.sinkCache)
    (hfetch : env.fetch source = Except.ok fr)
    (hscore : ∀ a, cfg.semanticAnalyzer = some a →
      a.scoreTopicRelevance (((fetchedContentText fr).getD ("")).take 2000)
        (cfg.userTopic.getD ("")) = Except.ok r) :
    (processSource env cfg emb st source currentDepth
        originSource).1.extractCalls = st.extractCalls ++ [source] ↔
      (truthyStr (fetchedContentText fr) = true ∧
       isWebSource source = true ∧
       truthyStr fr.rawHtml = true ∧
       depthBudget cfg currentDepth ∧
       ¬(truthyStr cfg.userTopic = true ∧
         (truthyStr (fetchedContentText fr) && analyzerAvailable cfg &&
           truthyOptList emb) = true ∧
         r < cfg.topicRelevanceThreshold)) := by
  rw [processSource_fst]
  unfold processSourceTry
  rw [if_neg hproc]
  simp only [hfetch]
  by_cases hsg : (truthyStr (fetchedContentText fr) && analyzerAvailable cfg &&
      truthyOptList emb) = true
  · obtain ⟨a, han⟩ : ∃ a, cfg.semanticAnalyzer = some a := by
      rcases hcfg : cfg.semanticAnalyzer with _ | a
      · exfalso
        have hfa : analyzerAvailable cfg = false := by
          simp [analyzerAvailable, hcfg]
        rw [Bool.and_eq_true, Bool.and_eq_true] at hsg
        rw [hfa] at hsg
        exact absurd hsg.1.2 (by simp)
      · exact ⟨a, rfl⟩
    have hsr : scoreResOf cfg emb (fetchedContentText fr) =
        Except.ok (some r) := by
      unfold scoreResOf
      rw [if_pos hsg]
      simp only [han]
      rw [hscore a han]
      rfl
    simp only [hsr]
    by_cases hg : (truthyStr (fetchedContentText fr) && isWebSource source &&
        truthyStr fr.rawHtml &&
        (cfg.defaultDepth == -1 || (currentDepth : Int) < cfg.defaultDepth)) = true
    · rw [if_pos hg]
      have hg' := hg
      rw [Bool.and_eq_true, Bool.and_eq_true, Bool.and_eq_true] at hg'
      obtain ⟨⟨⟨htc, hweb⟩, hraw⟩, hdc⟩ := hg'
      have hbud : depthBudget cfg currentDepth :=
        (depthBudget_iff cfg currentDepth).mp hdc
      by_cases hp : (truthyStr cfg.userTopic &&
          decide (r < cfg.topicRelevanceThreshold)) = true
      · rw [if_pos hp]
        rw [Bool.and_eq_true] at hp
        apply iff_of_false
        · intro h
          simp [saveCrawledData] at h
        · rintro ⟨_, _, _, _, hnot⟩
          exact hnot ⟨hp.1, hsg, of_decide_eq_true hp.2⟩
      · rw [if_neg hp]
        apply iff_of_true
        · exact extractAndQueueLinks_extractCalls env cfg
            (saveCrawledData st source (fetchedTitle env source fr)
              (metadataSummaryOf env source originSource fr)
              (pyStrOr (fetchedContentText fr) ("")) (some r))
            (fr.rawHtml.getD ("")) source currentDepth
            (pyStrOr (fetchedContentText fr) (""))
        · refine ⟨htc, hweb, hraw, hbud, ?_⟩
          rintro ⟨ht, _, hrr⟩
          exact hp (by rw [ht, decide_eq_true hrr]; rfl)
    · rw [if_neg hg]
      apply iff_of_false
      · intro h
        simp [saveCrawledData] at h
      · rintro ⟨htc, hweb, hraw, hbud, _⟩
        exact hg (by
          rw [htc, hweb, hraw, (depthBudget_iff cfg currentDepth).mpr hbud]
          rfl)
  · have hsgf : (truthyStr (fetchedContentText fr) && analyzerAvailable cfg &&
        truthyOptList emb) = false := Bool.eq_false_iff.mpr hsg
    have hsr := scoreResOf_gate_false cfg emb (fetchedContentText fr) hsgf
    simp only [hsr]
    by_cases hg : (truthyStr (fetchedContentText fr) && isWebSource source &&
        truthyStr fr.rawHtml &&
        (cfg.defaultDepth == -1 || (currentDepth : Int) < cfg.defaultDepth)) = true
    · rw [if_pos hg]
      have hg' := hg
      rw [Bool.and_eq_true, Bool.and_eq_true, Bool.and_eq_true] at hg'
      obtain ⟨⟨⟨htc, hweb⟩, hraw⟩, hdc⟩ := hg'
      have hbud : depthBudget cfg currentDepth :=
        (depthBudget_iff cfg currentDepth).mp hdc
      rw [if_neg (by simp : ¬((truthyStr cfg.userTopic && false) = true))]
      apply iff_of_true
      · exact extractAndQueueLinks_extractCalls env cfg
          (saveCrawledData st source (fetchedTitle env source fr)
            (metadataSummaryOf env source originSource fr)
            (pyStrOr (fetchedContentText fr) ("")) none)
          (fr.rawHtml.getD ("")) source currentDepth
          (pyStrOr (fetchedContentText fr) (""))
      · refine ⟨htc, hweb, hraw, hbud, ?_⟩
        rintro ⟨_, hcontra, _⟩
        rw [hsgf] at hcontra
        exact absurd hcontra (by simp)
    · rw [if_neg hg]
      apply iff_of_false
      · intro h
        simp [saveCrawledData] at h
      · rintro ⟨htc, hweb, hraw, hbud, _⟩
        exact hg (by
          rw [htc, hweb, hraw, (depthBudget_iff cfg currentDepth).mpr hbud]
          rfl)

/-- Claim C2, counterexample to the claim as stated: A web source whose
fetch *succeeds* (error `None`) but returns empty content text, with
depth budget remaining and no topic set, does **not** get its links
extracted or enqueued: all conditions of the claimed iff hold, yet
`_extract_and_queue_links` is never invoked (the extraction log and the
queue stay empty). -/
theorem link_gate_C2_counterexample :
    envEmptyText.fetch ("http://a") = Except.ok frEmpty ∧
    frEmpty.error = none ∧
    isWebSource ("http://a") = true ∧
    depthBudget cfgA 0 ∧
    cfgA.userTopic = none ∧
    ("http://a") ∉ (initState []).sinkCache ∧
    (processSource envEmptyText cfgA none (initState []) ("http://a") 0
        ("initial")).1.extractCalls = [] ∧
    (processSource envEmptyText cfgA none (initState []) ("http://a") 0
        ("initial")).1.queue = [] := by
  refine ⟨rfl, rfl, by decide, Or.inr (by decide), rfl, by decide, by decide,
    by decide⟩

theorem extractAndQueueLinks_drop_topic (env : Env) (cfg : CrawlConfig)
    (st : CrawlState) (rawHtml sourceUrl : String) (currentDepth : Nat)
    (pageContent : String) :
    extractAndQueueLinks env { cfg with userTopic := none } st rawHtml
        sourceUrl currentDepth pageContent =
      extractAndQueueLinks env cfg st rawHtml sourceUrl currentDepth
        pageContent := rfl

/-- With a falsy topic embedding, one `_process_source` call behaves
exactly as if no topic were configured at all. -/
theorem processSourceTry_drop_topic (env : Env) (cfg : CrawlConfig)
    (emb : Option (List Rat)) (st : CrawlState) (source : String)
    (currentDepth : Nat) (originSource : String)
    (h : truthyOptList emb = false) :
    processSourceTry env cfg emb st source currentDepth originSource =
      processSourceTry env { cfg with userTopic := none } none st source
        currentDepth originSource := by
  unfold processSourceTry
  split
  · rfl
  · split
    · rfl
    · rename_i fr
      rw [scoreResOf_emb_false cfg emb _ h,
        scoreResOf_emb_false { cfg with userTopic := none } none _ (by rfl)]
      simp only [Bool.and_false]
      rfl

theorem crawlStep_drop_topic (env : Env) (cfg : CrawlConfig)
    (emb : Option (List Rat)) (st : CrawlState)
    (h : truthyOptList emb = false) :
    crawlStep env cfg emb st =
      crawlStep env { cfg with userTopic := none } none st := by
  cases hq : st.queue with
  | nil =>
    rw [crawlStep_nil env cfg emb st hq,
      crawlStep_nil env { cfg with userTopic := none } none st hq]
  | cons i rest =>
    rw [crawlStep_cons env cfg emb st i rest hq,
      crawlStep_cons env { cfg with userTopic := none } none st i rest hq]
    unfold processSource
    rw [processSourceTry_drop_topic env cfg emb _ i.source i.depth i.origin h]

theorem crawlLoop_drop_topic (env : Env) (cfg : CrawlConfig)
    (emb : Option (List Rat)) (h : truthyOptList emb = false) :
    ∀ (n : Nat) (st : CrawlState),
      crawlLoop env cfg emb n st =
        crawlLoop env { cfg with userTopic := none } none n st := by
  intro n
  induction n with
  | zero => exact fun st => rfl
  | succ n ih =>
    intro st
    rw [crawlLoop_succ, crawlLoop_succ]
    by_cases hq : st.queue.isEmpty
    · rw [if_pos hq, if_pos hq]
    · rw [if_neg hq, if_neg hq, crawlStep_drop_topic env cfg emb st h, ih]

theorem extractAndQueueLinks_storeLog (env : Env) (cfg : CrawlConfig)
    (st : CrawlState) (rawHtml sourceUrl : String) (currentDepth : Nat)
    (pageContent : String) :
    (extractAndQueueLinks env cfg st rawHtml sourceUrl currentDepth
        pageContent).1.storeLog = st.storeLog := by
  obtain ⟨rl, hc⟩ :=
    extractAndQueueLinks_cases env cfg st rawHtml sourceUrl currentDepth
      pageContent
  obtain ⟨new, heq, _, _⟩ :=
    addToCrawlQueue_spec env rl
      { st with extractCalls := st.extractCalls ++ [sourceUrl] }
      (currentDepth + 1) sourceUrl
  rw [hc, heq]

/-- When the topic embedding is falsy, every store call performed by one
`_process_source` call carries a `None` relevance score. -/
theorem processSourceTry_storeLog_none (env : Env) (cfg : CrawlConfig)
    (emb : Option (List Rat)) (st : CrawlState) (source : String)
    (currentDepth : Nat) (originSource : String)
    (h : truthyOptList emb = false) :
    ∀ c ∈ (processSourceTry env cfg emb st source currentDepth
        originSource).1.storeLog,
      c ∈ st.storeLog ∨ c.sourceRelevanceToTopic = none := by
  unfold processSourceTry
  split
  · exact fun c hc => Or.inl hc
  · split
    · exact fun c hc => Or.inl hc
    · rename_i fr hfeq
      rw [scoreResOf_emb_false cfg emb _ h]
      intro c hc
      split at hc
      · exact Or.inl hc
      · rename_i score heq
        injection heq with heq2
        subst heq2
        split at hc
        · split at hc
          · simp only [saveCrawledData, List.mem_append, List.mem_singleton] at hc
            rcases hc with hc | hc
            · exact Or.inl hc
            · exact Or.inr (by rw [hc])
          · simp only [extractAndQueueLinks_storeLog, saveCrawledData,
              List.mem_append, List.mem_singleton] at hc
            rcases hc with hc | hc
            · exact Or.inl hc
            · exact Or.inr (by rw [hc])
        · simp only [saveCrawledData, List.mem_append, List.mem_singleton] at hc
          rcases hc with hc | hc
          · exact Or.inl hc
          · exact Or.inr (by rw [hc])

theorem crawlStep_storeLog_none (env : Env) (cfg : CrawlConfig)
    (emb : Option (List Rat)) (st : CrawlState)
    (h : truthyOptList emb = false)
    (hst : ∀ c ∈ st.storeLog, c.sourceRelevanceToTopic = none) :
    ∀ c ∈ (crawlStep env cfg emb st).storeLog,
      c.sourceRelevanceToTopic = none := by
  cases hq : st.queue with
  | nil => rw [crawlStep_nil env cfg emb st hq]; exact hst
  | cons i rest =>
    rw [crawlStep_cons env cfg emb st i rest hq]
    intro c hc
    rw [processSource_fst] at hc
    have hcc := processSourceTry_storeLog_none env cfg emb
      { st with queue := rest, processedLog := st.processedLog ++ [i] }
      i.source i.depth i.origin h c hc
    rcases hcc with hmem | hnone
    · exact hst c hmem
    · exact hnone

theorem crawlLoop_storeLog_none (env : Env) (cfg : CrawlConfig)
    (emb : Option (List Rat)) (h : truthyOptList emb = false) :
    ∀ (n : Nat) (st : CrawlState),
      (∀ c ∈ st.storeLog, c.sourceRelevanceToTopic = none) →
      ∀ c ∈ (crawlLoop env cfg emb n st).storeLog,
        c.sourceRelevanceToTopic = none := by
  intro n
  induction n with
  | zero => exact fun st hst => hst
  | succ n ih =>
    intro st hst
    rw [crawlLoop_succ]
    by_cases hq : st.queue.isEmpty
    · rw [if_pos hq]; exact hst
    · rw [if_neg hq]
      exact ih _ (crawlStep_storeLog_none env cfg emb st h hst)

/-- Claim C8: When a topic is configured but no topic embedding could be
produced, the whole run behaves exactly as if no topic were set: the final
state is identical to the no-topic run, no store call carries a relevance
score, and in particular topic pruning is never applied; the condition is
not fatal (the run is a total function of its inputs). -/
theorem scoring_unavailable_C8 (env : Env) (cfg : CrawlConfig)
    (sinkCache0 : List String) (initialSources : List String) (fuel : Nat)
    (h : truthyOptList (initTopicEmbedding cfg) = false) :
    startCrawling env cfg sinkCache0 initialSources fuel =
      startCrawling env { cfg with userTopic := none } sinkCache0
        initialSources fuel ∧
    ∀ c ∈ (startCrawling env cfg sinkCache0 initialSources fuel).storeLog,
      c.sourceRelevanceToTopic = none := by
  constructor
  · unfold startCrawling
    rw [crawlLoop_drop_topic env cfg _ h]
    have h2 : initTopicEmbedding { cfg with userTopic := none } = none := by
      simp [initTopicEmbedding, truthyStr]
    rw [h2]
  · unfold startCrawling
    refine crawlLoop_storeLog_none env cfg _ h fuel _ ?_
    obtain ⟨new, heq, _, _⟩ :=
      addToCrawlQueue_spec env initialSources (initState sinkCache0) 0
        ("initial")
    rw [heq]
    intro c hc
    simp [initState] at hc

/-- Claim C1: For every sequence of `add_to_crawl_queue` calls — with source
strings that may share a normalized identity — followed by any number of
dispatch steps, each distinct normalized identity is pushed onto the
crawl queue at most once per run (the push history is duplicate-free and
enumerates the visited set), and every pushed item is either already
dequeued or still queued, so each identity is dequeued at most once, and
exactly once when the queue has drained. -/
theorem frontier_dedup_C1 (env : Env) (cfg : CrawlConfig)
    (emb : Option (List Rat)) (sinkCache0 : List String)
    (calls : List (List String × Nat × String)) (fuel : Nat) :
    let final := crawlLoop env cfg emb fuel
      (calls.foldl (fun acc c => addToCrawlQueue env acc c.1 c.2.1 c.2.2)
        (initState sinkCache0))
    (final.pushLog.map (·.source)).Nodup ∧
      final.pushLog.map (·.source) = final.visited ∧
      final.pushLog = final.processedLog ++ final.queue := by
  intro final
  have hfold : ∀ (cs : List (List String × Nat × String)) (st : CrawlState),
      FrontierInv st →
      FrontierInv (cs.foldl
        (fun acc c => addToCrawlQueue env acc c.1 c.2.1 c.2.2) st) := by
    intro cs
    induction cs with
    | nil => exact fun st hst => hst
    | cons c cs ih =>
      intro st hst
      exact ih _ (frontierInv_add env st c.1 c.2.1 c.2.2 hst)
  have hrun : FrontierInv final :=
    frontierInv_loop env cfg emb fuel _
      (hfold calls _ (frontierInv_init sinkCache0))
  obtain ⟨h1, h2, h3⟩ := hrun
  exact ⟨by rw [h1]; exact h2, h1, h3⟩

/-- Claim C6: Depth monotonicity: initial sources are enqueued at depth `0`
with origin `"initial"`, and every item ever pushed during a run either is
such an initial item or was discovered while processing an item whose
source is its origin, at exactly one greater depth — so no item is
enqueued at a depth lower than its origin's depth plus one. -/
theorem depth_monotonicity_C6 (env : Env) (cfg : CrawlConfig)
    (sinkCache0 : List String) (initialSources : List String) (fuel : Nat) :
    (∀ j ∈ (addToCrawlQueue env (initState sinkCache0) initialSources 0
        ("initial")).pushLog, j.depth = 0 ∧ j.origin = "initial") ∧
    (∀ i ∈ (startCrawling env cfg sinkCache0 initialSources fuel).pushLog,
      (i.origin = "initial" ∧ i.depth = 0) ∨
        ∃ p ∈ (startCrawling env cfg sinkCache0 initialSources
            fuel).processedLog,
          p.source = i.origin ∧ i.depth = p.depth + 1) := by
  constructor
  · obtain ⟨new, heq, hdep, _⟩ :=
      addToCrawlQueue_spec env initialSources (initState sinkCache0) 0
        ("initial")
    rw [heq]
    intro j hj
    have hj' : j ∈ new := by simpa [initState] using hj
    exact ⟨(hdep j hj').1, (hdep j hj').2⟩
  · have h0 : DepthOriginOK
        (addToCrawlQueue env (initState sinkCache0) initialSources 0
          ("initial")) := by
      refine depthOriginOK_add_initial env _ initialSources ?_
      intro i hi
      simp [initState] at hi
    exact depthOriginOK_loop env cfg (initTopicEmbedding cfg) fuel _ h0

/-- Claim C7: Termination for finite depth: for every environment (any link
graph, cyclic ones included) and every `maxDepth ≥ 0`, some fuel empties
the queue, and in that final state each distinct normalized source has
been processed exactly once: the dequeue history is duplicate-free and
enumerates exactly the visited set. -/
theorem crawl_termination_C7 (env : Env) (cfg : CrawlConfig)
    (sinkCache0 : List String) (initialSources : List String)
    (hcfg : 0 ≤ cfg.defaultDepth) :
    ∃ fuel : Nat,
      (startCrawling env cfg sinkCache0 initialSources fuel).queue = [] ∧
      ((startCrawling env cfg sinkCache0 initialSources
          fuel).processedLog.map (·.source)).Nodup ∧
      (startCrawling env cfg sinkCache0 initialSources
          fuel).processedLog.map (·.source) =
        (startCrawling env cfg sinkCache0 initialSources fuel).visited := by
  obtain ⟨new, heq, hdep, _⟩ :=
    addToCrawlQueue_spec env initialSources (initState sinkCache0) 0
      ("initial")
  have hq0 : ∀ j ∈ (addToCrawlQueue env (initState sinkCache0)
      initialSources 0 ("initial")).queue, j.depth = 0 := by
    rw [heq]
    intro j hj
    have hj' : j ∈ new := by simpa [initState] using hj
    exact (hdep j hj').1
  obtain ⟨n, hn⟩ :=
    crawlLoop_layers_terminate env cfg (initTopicEmbedding cfg) hcfg
      cfg.defaultDepth.toNat
      (addToCrawlQueue env (initState sinkCache0) initialSources 0
        ("initial"))
      0 hq0
      (by
        have := Int.self_le_toNat cfg.defaultDepth
        omega)
  have hinv : FrontierInv (startCrawling env cfg sinkCache0 initialSources n) :=
    frontierInv_loop env cfg (initTopicEmbedding cfg) n _
      (frontierInv_add env _ initialSources 0 ("initial")
        (frontierInv_init sinkCache0))
  obtain ⟨h1, h2, h3⟩ := hinv
  have hqe : (startCrawling env cfg sinkCache0 initialSources n).queue = [] := hn
  have hpl : (startCrawling env cfg sinkCache0 initialSources n).pushLog =
      (startCrawling env cfg sinkCache0 initialSources n).processedLog := by
    rw [h3, hqe]
    simp
  refine ⟨n, hqe, ?_, ?_⟩
  · rw [← hpl, h1]
    exact h2
  · rw [← hpl, h1]

theorem fetch_failure_C5_witness :
    processSource envErr cfgA none (initState []) ("http://a") 0
        ("initial") =
      ({ initState [] with
          storeLog := [⟨"http://a", some ("http://a"),
            "crawled 2026-01-02 03:04:05, Error: ConnectionError", "",
            none⟩],
          sinkCache := [("http://a")] }, 0) :=
  fetch_failure_C5 envErr cfgA none (initState []) ("http://a") 0
    ("initial")
    { text := none, title := none, rawHtml := none,
      error := some ("ConnectionError") }
    ("ConnectionError") (by decide) rfl rfl (by decide)

theorem topic_pruning_C4_witness :
    processSource envA cfgTopic (some [1]) (initState []) ("http://a") 0
        ("initial") =
      ({ initState [] with
          storeLog := [⟨"http://a", some ("T"),
            "crawled 2026-01-02 03:04:05, HTML page", "body",
            some (mkRat 3 10)⟩],
          sinkCache := [("http://a")] }, 0) :=
  topic_pruning_C4 envA cfgTopic (some [1]) (initState []) ("http://a") 0
    ("initial")
    { text := some ("body"), title := some ("T"),
      rawHtml := some ("<html>"), error := none }
    anLow (mkRat 3 10) (by decide) rfl rfl (by decide) rfl rfl rfl rfl
    (by decide) (by decide)

theorem link_gate_C2_witness :
    (processSource envA cfgA none (initState []) ("http://a") 0
        ("initial")).1.extractCalls = [("http://a")] :=
  (link_gate_C2 envA cfgA none (initState []) ("http://a") 0 ("initial")
    { text := some ("body"), title := some ("T"),
      rawHtml := some ("<html>"), error := none }
    (mkRat 0 1) (by decide) rfl (fun a h => Option.noConfusion h)).mpr
    (by decide)

theorem link_filter_modes_C3_witness :
    extractAndQueueLinks envLinks cfgA (initState []) ("<x>") ("http://s")
        0 ("page") =
      (addToCrawlQueue envLinks
        { initState [] with extractCalls := [("http://s")] }
        [("http://x"), ("http://y")] 1 ("http://s"), 2) ∧
    extractAndQueueLinks envLinks cfgAdv (initState []) ("<x>") ("http://s")
        0 ("page") =
      (addToCrawlQueue envLinks
        { initState [] with extractCalls := [("http://s")] }
        [("http://y")] 1 ("http://s"), 1) := by
  constructor
  · exact (link_filter_modes_C3 envLinks cfgA (initState []) ("<x>")
      ("http://s") 0 ("page")
      [{ url := "http://x", anchor := "click" },
       { url := "http://y", anchor := "" }]
      (fun _ _ => mkRat 1 10) rfl (fun a h => Option.noConfusion h)).1
      (by decide)
  · exact (link_filter_modes_C3 envLinks cfgAdv (initState []) ("<x>")
      ("http://s") 0 ("page")
      [{ url := "http://x", anchor := "click" },
       { url := "http://y", anchor := "" }]
      (fun _ _ => mkRat 1 10) rfl
      (fun a h => by
        have h2 : anLow = a := by injection h
        subst h2
        exact fun s t => rfl)).2
      anLow rfl rfl (by decide)

theorem link_filter_failopen_C10_witness :
    extractAndQueueLinks envLinks cfgHighNoScorer (initState []) ("<x>")
        ("http://s") 0 ("page") =
      (addToCrawlQueue envLinks
        { initState [] with extractCalls := [("http://s")] }
        [("http://x"), ("http://y")] 1 ("http://s"), 2) :=
  link_filter_failopen_C10 envLinks cfgHighNoScorer (initState []) ("<x>")
    ("http://s") 0 ("page")
    [{ url := "http://x", anchor := "click" },
     { url := "http://y", anchor := "" }]
    rfl rfl (by decide)

theorem crawl_termination_C7_witness :
    ∃ fuel : Nat,
      (startCrawling envA cfgA [] [("http://a")] fuel).queue = [] ∧
      ((startCrawling envA cfgA [] [("http://a")]
          fuel).processedLog.map (·.source)).Nodup ∧
      (startCrawling envA cfgA [] [("http://a")]
          fuel).processedLog.map (·.source) =
        (startCrawling envA cfgA [] [("http://a")] fuel).visited :=
  crawl_termination_C7 envA cfgA [] [("http://a")] (by decide)

theorem depth_monotonicity_C6_witness :
    (itemB.origin = "initial" ∧ itemB.depth = 0) ∨
      ∃ p ∈ (startCrawling envA cfgA [] [("http://a")] 4).processedLog,
        p.source = itemB.origin ∧ itemB.depth = p.depth + 1 :=
  (depth_monotonicity_C6 envA cfgA [] [("http://a")] 4).2 itemB (by decide)

theorem scoring_unavailable_C8_witness :
    startCrawling envA cfgTopicNoEmb [] [("http://a")] 4 =
      startCrawling envA { cfgTopicNoEmb with userTopic := none } []
        [("http://a")] 4 ∧
    ∀ c ∈ (startCrawling envA cfgTopicNoEmb [] [("http://a")] 4).storeLog,
      c.sourceRelevanceToTopic = none :=
  scoring_unavailable_C8 envA cfgTopicNoEmb [] [("http://a")] 4 (by decide)

theorem worker_error_containment_C9_witness :
    stPopA =
      { stQueueA with
        queue := [],
        processedLog := stQueueA.processedLog ++ [itemA] } ∧
    processSource envRaise cfgA none
        { stQueueA with
          queue := [],
          processedLog := stQueueA.processedLog ++ [itemA] }
        itemA.source itemA.depth itemA.origin =
      ({ stQueueA with
          queue := [],
          processedLog := stQueueA.processedLog ++ [itemA] }, 0) ∧
    crawlStep envRaise cfgA none stQueueA =
      { stQueueA with
        queue := [],
        processedLog := stQueueA.processedLog ++ [itemA] } ∧
    (∀ n : Nat, crawlLoop envRaise cfgA none (n + 1) stQueueA =
      crawlLoop envRaise cfgA none n (crawlStep envRaise cfgA none stQueueA)) :=
  worker_error_containment_C9 envRaise cfgA none stQueueA itemA [] stPopA
    ("boom") (by decide) (by rfl)
